import Mathlib

/-!
Shallow embedding of the RAG pipeline of `src/tools/rag.py`
(`DocumentProcessor.chunk_text`, `RAGSystem._expand_query`,
`RAGSystem.index_documents`, `RAGSystem.search`) together with the
Python string primitives they rely on (`str.split()`, `str.strip()`,
`str.join`, `str.lower`, substring membership, `range`, list slicing,
`round(x, 3)`).  Distances and scores are modelled as rationals; the
embedding model and the vector store's nearest-neighbour query are
abstract parameters.
-/

namespace RAG

/-! ### Python string primitives -/

/-- Python whitespace characters recognised by `str.split()` / `str.strip()`. -/
def isPyWs (c : Char) : Bool :=
  c == ' ' || c == '\t' || c == '\n' || c == '\x0d' || c == '\x0b' || c == '\x0c'

/-- Worker for `str.split()`: scan the characters, accumulating the current
word (in reverse) in `acc`; whitespace flushes the accumulated word. -/
def splitWsAux : List Char → List Char → List (List Char)
  | [], acc => if acc = [] then [] else [acc.reverse]
  | c :: cs, acc =>
    if isPyWs c then
      if acc = [] then splitWsAux cs [] else acc.reverse :: splitWsAux cs []
    else
      splitWsAux cs (c :: acc)

/-- `str.split()` on a character list: maximal runs of non-whitespace. -/
def pySplitL (l : List Char) : List (List Char) := splitWsAux l []

/-- Python `text.split()` (split on whitespace runs, no empty words). -/
def pyWords (s : String) : List String := (pySplitL s.data).map String.mk

/-- Python `text.strip()` on a character list. -/
def pyStripL (l : List Char) : List Char :=
  ((l.dropWhile isPyWs).reverse.dropWhile isPyWs).reverse

/-- Python `text.strip()`. -/
def pyStrip (s : String) : String := String.mk (pyStripL s.data)

/-- Character-level body of `' '.join`: interleave single spaces. -/
def joinL : List (List Char) → List Char
  | [] => []
  | [w] => w
  | w :: ws => w ++ ' ' :: joinL ws

/-- Python `' '.join(parts)`. -/
def pyJoin (parts : List String) : String := String.mk (joinL (parts.map String.data))

/-- Python `s.lower()` (the inputs in this development are ASCII). -/
def pyLower (s : String) : String := String.mk (s.data.map Char.toLower)

/-- Python `needle in hay` for strings: contiguous substring test. -/
def pyContains (hay needle : String) : Bool :=
  hay.data.tails.any (fun t => needle.data.isPrefixOf t)

/-- Python `range(start, stop, step)` as a list; `none` models the
`ValueError` that `range` raises when `step == 0`. -/
def pyRange (start stop step : Int) : Option (List Int) :=
  if step = 0 then none
  else if 0 < step then
    some ((List.range ((stop - start + step - 1) / step).toNat).map
      (fun (k : Nat) => start + (k : Int) * step))
  else
    some ((List.range ((start - stop + (-step) - 1) / (-step)).toNat).map
      (fun (k : Nat) => start + (k : Int) * step))

/-- Normalise one Python slice index against a length. -/
def pySliceIdx (n : Int) (i : Int) : Nat :=
  if i < 0 then (max 0 (n + i)).toNat else (min i n).toNat

/-- Python `xs[i:j]` list slicing. -/
def pySlice {α : Type} (xs : List α) (i j : Int) : List α :=
  let n : Int := xs.length
  (xs.take (pySliceIdx n j)).drop (pySliceIdx n i)

/-- Python exceptions surfaced by the embedded code. -/
inductive PyErr
  | valueError
deriving DecidableEq, Repr

/-! ### `DocumentProcessor.chunk_text` -/

/-- `DocumentProcessor.chunk_text` from `src/tools/rag.py`:
split into words; a text of at most `chunk_size` words is returned whole
(or as no chunk when blank); otherwise walk `range(0, len(words), step)`
with `step = chunk_size - overlap`, joining `words[i:i+chunk_size]` and
keeping each chunk whose stripped text is non-empty.  A zero step makes
Python's `range` raise `ValueError`. -/
def chunk_text (text : String) (chunk_size : Int := 250) (overlap : Int := 75) :
    Except PyErr (List String) :=
  let words := pyWords text
  if (words.length : Int) ≤ chunk_size then
    .ok (if pyStrip text ≠ "" then [text] else [])
  else
    let step := chunk_size - overlap
    match pyRange 0 (words.length : Int) step with
    | none => .error .valueError
    | some idxs =>
        .ok (((idxs.map (fun i => pyJoin (pySlice words i (i + chunk_size)))).filter
          (fun chunk => pyStrip chunk ≠ "")))

instance {e a : Type} [DecidableEq e] [DecidableEq a] : DecidableEq (Except e a) := fun x y =>
  match x, y with
  | .ok u, .ok v => if h : u = v then .isTrue (by rw [h]) else .isFalse (by simp [h])
  | .error u, .error v => if h : u = v then .isTrue (by rw [h]) else .isFalse (by simp [h])
  | .ok _, .error _ => .isFalse (by simp)
  | .error _, .ok _ => .isFalse (by simp)

/-! ### Lemmas about the Python string primitives -/

/-- A word as produced by `str.split()`: non-empty, no whitespace characters. -/
def CleanWord (w : List Char) : Prop := w ≠ [] ∧ ∀ c ∈ w, isPyWs c = false

instance : DecidablePred CleanWord := fun w => by unfold CleanWord; infer_instance

/-- Number of windows `chunk_text` produces on a text of `len` words. -/
def numWindows (len cs ov : Int) : Nat := ((len + (cs - ov) - 1) / (cs - ov)).toNat

/-- The window start offsets `0, step, 2*step, ...` visited by the
chunking loop for a text of `len` words. -/
def windowStarts (len cs ov : Int) : List Int :=
  (List.range (numWindows len cs ov)).map (fun (k : Nat) => (k : Int) * (cs - ov))

/-! ### `RAGSystem.DND_SYNONYMS` and `RAGSystem._expand_query` -/

/-- The `DND_SYNONYMS` dictionary of `RAGSystem`, in source (insertion) order. -/
def DND_SYNONYMS : List (String × List String) := [
  ("attaque", ["attack", "hit", "strike", "damage", "melee", "ranged"]),
  ("defense", ["armor", "ac", "shield", "protection", "defense"]),
  ("magie", ["magic", "spell", "spellcasting", "arcane", "divine", "magical"]),
  ("sort", ["spell", "cantrip", "magic", "incantation"]),
  ("monstre", ["monster", "creature", "beast", "enemy", "foe"]),
  ("combat", ["combat", "battle", "fight", "initiative", "round", "turn"]),
  ("jet", ["roll", "check", "save", "saving throw", "dice"]),
  ("sauvegarde", ["save", "saving throw", "constitution", "dexterity", "wisdom"]),
  ("competence", ["skill", "ability", "proficiency", "check"]),
  ("niveau", ["level", "tier", "class level"]),
  ("classe", ["class", "fighter", "wizard", "rogue", "cleric", "barbarian", "bard",
    "druid", "monk", "paladin", "ranger", "sorcerer", "warlock"]),
  ("race", ["race", "species", "elf", "dwarf", "human", "halfling", "gnome",
    "dragonborn", "tiefling", "half-orc", "half-elf"]),
  ("equipement", ["equipment", "gear", "weapon", "armor", "item"]),
  ("arme", ["weapon", "sword", "bow", "axe", "dagger", "mace", "staff"]),
  ("degat", ["damage", "harm", "hurt", "hit points", "hp"]),
  ("soin", ["heal", "healing", "cure", "restore", "hit points", "recovery"]),
  ("mouvement", ["movement", "speed", "move", "walk", "dash", "disengage"]),
  ("action", ["action", "bonus action", "reaction", "free action"]),
  ("repos", ["rest", "short rest", "long rest", "recovery"]),
  ("condition", ["condition", "status", "blinded", "charmed", "frightened",
    "paralyzed", "poisoned", "prone", "stunned", "unconscious", "exhaustion"]),
  ("avantage", ["advantage", "disadvantage"]),
  ("concentration", ["concentration", "maintain", "spell concentration"]),
  ("opportunite", ["opportunity", "opportunity attack", "reaction"]),
  ("couverture", ["cover", "half cover", "three-quarters cover", "total cover"]),
  ("lumiere", ["light", "darkness", "dim light", "bright light", "darkvision", "blindsight"]),
  ("alignement", ["alignment", "lawful", "chaotic", "good", "evil", "neutral"]),
  ("mort", ["death", "dying", "death save", "unconscious", "stabilize"]),
  ("critique", ["critical", "critical hit", "natural 20", "crit"]),
  ("resistance", ["resistance", "immunity", "vulnerability"]),
  ("multiclasse", ["multiclass", "multiclassing", "multi-class"]),
  ("caracteristique", ["ability", "ability score", "strength", "dexterity",
    "constitution", "intelligence", "wisdom", "charisma", "stat"]),
  ("pv", ["hit points", "hp", "health", "life"]),
  ("ca", ["armor class", "ac", "defense"]),
  ("initiative", ["initiative", "turn order", "combat order"]),
  ("terrain", ["terrain", "difficult terrain", "movement"]),
  ("vision", ["vision", "sight", "darkvision", "blindsight", "truesight"])]

/-- The synonym terms `_expand_query` appends: for each dictionary key that is
a substring of the lower-cased query, the first two of its mapped terms. -/
def expansionTerms (query : String) : List String :=
  (DND_SYNONYMS.filter (fun kv => pyContains (pyLower query) kv.1)).flatMap
    (fun kv => kv.2.take 2)

/-- `RAGSystem._expand_query`: join the original query with the appended
synonym terms using single spaces. -/
def expand_query (query : String) : String :=
  pyJoin (query :: expansionTerms query)

/-! ### `RAGSystem.search` -/

/-- Python `round(x, 3)`: round to 3 decimal places, ties to even. -/
def pyRound3 (x : ℚ) : ℚ :=
  (if 2 * (1000 * x - (⌊1000 * x⌋ : ℚ)) > 1 then (⌊1000 * x⌋ + 1 : ℚ)
   else if 2 * (1000 * x - (⌊1000 * x⌋ : ℚ)) < 1 then (⌊1000 * x⌋ : ℚ)
   else if Even ⌊1000 * x⌋ then (⌊1000 * x⌋ : ℚ) else (⌊1000 * x⌋ + 1 : ℚ)) / 1000

/-- Chunk metadata as stored in the collection. -/
structure PyMeta where
  source : String
  page : Nat
  chunk : Nat
deriving DecidableEq, Repr

/-- One nearest-neighbour candidate as returned by the vector store:
document text, metadata, and distance. -/
structure Candidate where
  doc : String
  metadata : PyMeta
  distance : ℚ
deriving DecidableEq, Repr

/-- One formatted search result: text, metadata, and the rounded score. -/
structure SearchResult where
  text : String
  metadata : PyMeta
  score : ℚ
deriving DecidableEq, Repr

/-- Build the result record `search` appends for a kept candidate. -/
def toResult (c : Candidate) : SearchResult :=
  ⟨c.doc, c.metadata, pyRound3 (1 - c.distance)⟩

/-- The filtering loop of `RAGSystem.search`: keep a candidate when its
distance is below `min_score` or fewer than 3 results are kept so far, and
break out of the loop once `n_results` results are kept. -/
def searchLoop (n_results : Nat) (min_score : ℚ) :
    List Candidate → List SearchResult → List SearchResult
  | [], acc => acc
  | c :: rest, acc =>
    let acc' := if c.distance < min_score ∨ acc.length < 3 then acc ++ [toResult c] else acc
    if n_results ≤ acc'.length then acc' else searchLoop n_results min_score rest acc'

/-- `RAGSystem.search`, instrumented: besides the results it returns the
list of texts sent to the Embedding Engine (`encode` calls).  `count` is
`self.collection.count()`, `embed` the embedding model, `query_nearest`
the vector store's `collection.query` (ordered ascending by distance,
called with `n_results * 2`). -/
def searchT {V : Type} (count : Nat) (embed : String → V)
    (query_nearest : V → Nat → List Candidate)
    (query : String) (n_results : Nat := 5) (min_score : ℚ := 3/10) :
    List SearchResult × List String :=
  if count = 0 then ([], [])
  else
    let expanded_query := expand_query query
    let results := query_nearest (embed expanded_query) (n_results * 2)
    (searchLoop n_results min_score results [], [expanded_query])

/-- `RAGSystem.search`: the results component of `searchT`. -/
def search {V : Type} (count : Nat) (embed : String → V)
    (query_nearest : V → Nat → List Candidate)
    (query : String) (n_results : Nat := 5) (min_score : ℚ := 3/10) :
    List SearchResult :=
  (searchT count embed query_nearest query n_results min_score).1

/-! ### `RAGSystem.index_documents` -/

/-- One extracted page, as produced by `DocumentProcessor.load_all_pdfs`:
cleaned text, source file name, 1-based page number. -/
structure PageDoc where
  text : String
  source : String
  page : Nat
deriving DecidableEq, Repr

/-- One record of the Chroma collection: id, embedding, document text,
metadata. -/
structure IndexedRecord (V : Type) where
  id : String
  embedding : V
  document : String
  metadata : PyMeta
deriving DecidableEq, Repr

/-- The persistent collection state. -/
structure RAGState (V : Type) where
  records : List (IndexedRecord V)
deriving DecidableEq, Repr

/-- `collection.count()`. -/
def RAGState.count {V : Type} (st : RAGState V) : Nat := st.records.length

/-- `RAGSystem.index_documents`: return unchanged when the collection is
non-empty and no force flag is given; return unchanged when extraction
yields no documents; otherwise chunk every document with the default
chunking parameters, give chunk `chunk_idx` of a page the id
`"{source}_p{page}_c{chunk_idx}"`, embed every chunk, and add all records
to the collection (the batching in the source only groups the `add` calls
and does not change the final contents). -/
def index_documents {V : Type} (embed : String → V) (documents : List PageDoc)
    (st : RAGState V) (force_reindex : Bool := false) :
    Except PyErr (RAGState V) :=
  if 0 < st.count ∧ force_reindex = false then .ok st
  else if documents.isEmpty then .ok st
  else do
    let chunksList ← documents.mapM (fun d => chunk_text d.text)
    let newRecords := (documents.zip chunksList).flatMap (fun dc =>
      dc.2.enum.map (fun ic =>
        { id := dc.1.source ++ "_p" ++ toString dc.1.page ++ "_c" ++ toString ic.1
          embedding := embed ic.2
          document := ic.2
          metadata := ⟨dc.1.source, dc.1.page, ic.1⟩ }))
    .ok ⟨st.records ++ newRecords⟩

/-- One step of the keep loop, written from the amended claim: skip when
already stopped; otherwise keep the candidate exactly when its distance is
below `min_score` or fewer than 3 results kept so far, and stop once
`n_results` results are kept. -/
def keepStep (n_results : Nat) (min_score : ℚ) (st : List SearchResult × Bool)
    (c : Candidate) : List SearchResult × Bool :=
  if st.2 then st
  else
    let acc' := if c.distance < min_score ∨ st.1.length < 3 then st.1 ++ [toResult c] else st.1
    (acc', decide (n_results ≤ acc'.length))

/-- The amended filtering policy as a left fold over the candidates. -/
def searchKeepSpec (cands : List Candidate) (n_results : Nat) (min_score : ℚ) :
    List SearchResult :=
  (cands.foldl (keepStep n_results min_score) ([], false)).1

/-! ### Concrete inputs used by counterexamples and witnesses -/

/-- 600 distinct words `w0 ... w599`. -/
def words600 : List String := (List.range 600).map (fun n => "w" ++ toString n)

/-- A text of exactly 600 distinct words. -/
def text600 : String := pyJoin words600

/-- A text of 101 words. -/
def text101 : String := pyJoin (List.replicate 101 "a")

/-- 14 distinct words `w0 ... w13`. -/
def words14 : List String := (List.range 14).map (fun n => "w" ++ toString n)

/-- A text of exactly 14 distinct words. -/
def text14 : String := pyJoin words14

/-- The chunks of `text14` under `chunk_size=10, overlap=7` (step 3). -/
def chunks14 : List String :=
  [pyJoin (pySlice words14 0 10), pyJoin (pySlice words14 3 13),
   pyJoin (pySlice words14 6 14), pyJoin (pySlice words14 9 14),
   pyJoin (pySlice words14 12 14)]

/-- A sample metadata record. -/
def m0 : PyMeta := ⟨"s.pdf", 1, 0⟩

/-- Four candidates: one passing the distance filter, three in the floor zone. -/
def cands4 : List Candidate :=
  [⟨"t1", m0, 1234/10000⟩, ⟨"t2", m0, 1/2⟩, ⟨"t3", m0, 1/2⟩, ⟨"t4", m0, 1/2⟩]

/-- Five candidates whose scores `1 - d` all fall below `0.3`, sorted by
ascending distance. -/
def cands5c : List Candidate :=
  [⟨"r1", m0, 8/10⟩, ⟨"r2", m0, 85/100⟩, ⟨"r3", m0, 9/10⟩,
   ⟨"r4", m0, 95/100⟩, ⟨"r5", m0, 99/100⟩]

/-- A sample indexed record. -/
def rec1 : IndexedRecord Unit := ⟨"a.pdf_p1_c0", (), "hello", ⟨"a.pdf", 1, 0⟩⟩

/-- A collection holding one record. -/
def st1 : RAGState Unit := ⟨[rec1]⟩

/-- The empty collection. -/
def st0 : RAGState Unit := ⟨[]⟩

/-- A single-page document holding the 600-word text. -/
def doc600 : PageDoc := ⟨text600, "doc.pdf", 1⟩

/-- A default candidate (used only as a `getD` fallback). -/
def cdef : Candidate := ⟨"", m0, 0⟩


theorem splitWsAux_word (w : List Char) : ∀ (l acc : List Char),
    (∀ c ∈ w, isPyWs c = false) →
    splitWsAux (w ++ l) acc = splitWsAux l (w.reverse ++ acc) := by
  induction w with
  | nil => intro l acc _; simp
  | cons c w' ih =>
    intro l acc hw
    have hc : isPyWs c = false := hw c (by simp)
    simp only [List.cons_append, splitWsAux, hc, Bool.false_eq_true, if_false, List.append_eq]
    rw [ih l (c :: acc) (fun d hd => hw d (by simp [hd]))]
    simp

theorem pySplitL_joinL (ws : List (List Char)) (h : ∀ w ∈ ws, CleanWord w) :
    pySplitL (joinL ws) = ws := by
  induction ws with
  | nil => simp [joinL, pySplitL, splitWsAux]
  | cons w tail ih =>
    obtain ⟨hw, hwc⟩ := h w (by simp)
    cases tail with
    | nil =>
      show pySplitL (joinL [w]) = [w]
      have : joinL [w] = w ++ [] := by simp [joinL]
      rw [pySplitL, this, splitWsAux_word w [] [] hwc]
      simp [splitWsAux, hw]
    | cons w' rest =>
      have hj : joinL (w :: w' :: rest) = w ++ (' ' :: joinL (w' :: rest)) := rfl
      rw [pySplitL, hj, splitWsAux_word w _ [] hwc]
      have hacc : w.reverse ++ [] ≠ [] := by simp [hw]
      simp only [splitWsAux, show isPyWs ' ' = true from rfl, if_true, List.append_nil]
      rw [if_neg (by simpa using hw)]
      simp only [List.reverse_reverse]
      exact congrArg (w :: ·) (ih (fun u hu => h u (by simp [hu])))

theorem mem_splitWsAux (l : List Char) : ∀ (acc : List Char),
    (∀ c ∈ acc, isPyWs c = false) →
    ∀ w ∈ splitWsAux l acc, CleanWord w := by
  induction l with
  | nil =>
    intro acc hacc w hw
    by_cases h : acc = [] <;> simp [splitWsAux, h] at hw
    subst hw
    exact ⟨by simp [h], fun c hc => hacc c (by simpa using hc)⟩
  | cons c cs ih =>
    intro acc hacc w hw
    by_cases hws : isPyWs c
    · by_cases h : acc = []
      · simp only [splitWsAux, hws, if_true, h, if_pos rfl] at hw
        exact ih [] (by simp) w hw
      · simp only [splitWsAux, hws, if_true, if_neg h, List.mem_cons] at hw
        rcases hw with rfl | hw
        · exact ⟨by simp [h], fun d hd => hacc d (by simpa using hd)⟩
        · exact ih [] (by simp) w hw
    · simp only [splitWsAux, hws, Bool.false_eq_true, if_false] at hw
      refine ih (c :: acc) ?_ w hw
      intro d hd
      rcases List.mem_cons.mp hd with rfl | hd
      · simpa using hws
      · exact hacc d hd

theorem pySplitL_clean (l : List Char) : ∀ w ∈ pySplitL l, CleanWord w :=
  mem_splitWsAux l [] (by simp)

theorem mem_dropWhile_of_neg {p : α → Bool} {l : List α} {x : α}
    (hx : x ∈ l) (hp : p x = false) : x ∈ l.dropWhile p := by
  induction l with
  | nil => cases hx
  | cons a t ih =>
    by_cases ha : p a
    · rw [List.dropWhile_cons_of_pos ha]
      rcases List.mem_cons.mp hx with rfl | hx
      · rw [hp] at ha; cases ha
      · exact ih hx
    · rw [List.dropWhile_cons_of_neg (by simpa using ha)]
      exact hx

theorem pyStripL_ne_nil {l : List Char} {c : Char}
    (hc : c ∈ l) (hws : isPyWs c = false) : pyStripL l ≠ [] := by
  intro h
  unfold pyStripL at h
  rw [List.reverse_eq_nil_iff] at h
  have hall := List.dropWhile_eq_nil_iff.mp h
  have hc1 : c ∈ (l.dropWhile isPyWs).reverse :=
    List.mem_reverse.mpr (mem_dropWhile_of_neg hc hws)
  have := hall c hc1
  rw [hws] at this
  cases this

theorem mem_joinL_head {w : List Char} {ws : List (List Char)} {c : Char}
    (hc : c ∈ w) : c ∈ joinL (w :: ws) := by
  cases ws with
  | nil => simpa [joinL] using hc
  | cons w' rest => simp [joinL, hc]

theorem pyStrip_pyJoin_ne_empty (parts : List String)
    (hne : parts ≠ [])
    (hclean : ∀ s ∈ parts, CleanWord s.data) :
    pyStrip (pyJoin parts) ≠ "" := by
  cases parts with
  | nil => cases hne rfl
  | cons p rest =>
    obtain ⟨hp, hpc⟩ := hclean p (by simp)
    obtain ⟨c, hc⟩ := List.exists_mem_of_ne_nil p.data hp
    intro h
    have hmem : c ∈ joinL (p.data :: rest.map String.data) := mem_joinL_head hc
    have hne2 : pyStripL (joinL ((p :: rest).map String.data)) ≠ [] :=
      pyStripL_ne_nil hmem (hpc c hc)
    apply hne2
    have : (pyStrip (pyJoin (p :: rest))).data = ("" : String).data := by rw [h]
    simpa [pyStrip, pyJoin] using this

theorem String.mk_data (s : String) : String.mk s.data = s := by cases s; rfl

theorem pyWords_pyJoin (parts : List String)
    (hclean : ∀ s ∈ parts, CleanWord s.data) :
    pyWords (pyJoin parts) = parts := by
  unfold pyWords pyJoin
  simp only [String.data]
  rw [pySplitL_joinL (parts.map String.data)
    (by intro w hw; obtain ⟨s, hs, rfl⟩ := List.mem_map.mp hw; exact hclean s hs)]
  rw [List.map_map]
  exact List.map_congr_left (fun s _ => String.mk_data s) |>.trans (List.map_id parts)

/-! ### Lemmas about `pyRange` and `pySlice` -/

theorem pyRange_pos (stop step : Int) (h : 0 < step) :
    pyRange 0 stop step =
      some ((List.range ((stop + step - 1) / step).toNat).map (fun (k : Nat) => (k : Int) * step)) := by
  simp [pyRange, h, h.ne', Int.sub_zero]

theorem pyRange_neg (stop step : Int) (hstop : 0 ≤ stop) (hstep : step < 0) :
    pyRange 0 stop step = some [] := by
  have hne : ¬ step = 0 := by omega
  have hpos : ¬ 0 < step := by omega
  have hz : ((0 - stop + (-step) - 1) / (-step)).toNat = 0 := by
    rcases le_or_lt 0 (0 - stop + (-step) - 1) with hnn | hneg
    · rw [Int.ediv_eq_zero_of_lt hnn (by omega), Int.toNat_zero]
    · exact Int.toNat_of_nonpos (Int.ediv_neg' hneg (by omega)).le
  unfold pyRange
  rw [if_neg hne, if_neg hpos, hz]
  rfl

theorem pyRange_pos_bound {stop step : Int} (hstep : 0 < step)
    {k : Nat} (hk : k < ((stop + step - 1) / step).toNat) :
    0 ≤ (k : Int) * step ∧ (k : Int) * step < stop := by
  refine ⟨mul_nonneg (by positivity) hstep.le, ?_⟩
  have hk' : (k : Int) < (stop + step - 1) / step := Int.lt_toNat.mp hk
  have h1 : ((k : Int) + 1) * step ≤ ((stop + step - 1) / step) * step :=
    mul_le_mul_of_nonneg_right (by omega) hstep.le
  have h2 : ((stop + step - 1) / step) * step ≤ stop + step - 1 :=
    Int.ediv_mul_le _ hstep.ne'
  nlinarith

theorem pySlice_eq_drop_take {α : Type} (xs : List α) (i j : Int)
    (hi : 0 ≤ i) (hij : i ≤ j) (hin : i ≤ (xs.length : Int)) :
    pySlice xs i j = (xs.drop i.toNat).take ((min j (xs.length : Int)).toNat - i.toNat) := by
  unfold pySlice pySliceIdx
  have h1 : ¬ j < 0 := by omega
  have h2 : ¬ i < 0 := by omega
  simp only [h1, h2, if_false]
  rw [show (i ⊓ (xs.length : Int)) = i from inf_eq_left.mpr hin]
  rw [List.drop_take]

theorem pySlice_length {α : Type} (xs : List α) (i j : Int)
    (hi : 0 ≤ i) (hij : i ≤ j) (hin : i ≤ (xs.length : Int)) :
    (pySlice xs i j).length = (min j (xs.length : Int)).toNat - i.toNat := by
  rw [pySlice_eq_drop_take xs i j hi hij hin]
  rw [List.length_take, List.length_drop]
  omega

theorem pySlice_ne_nil {α : Type} (xs : List α) (i j : Int)
    (hi : 0 ≤ i) (hij : i < j) (hin : i < (xs.length : Int)) :
    pySlice xs i j ≠ [] := by
  have hlen := pySlice_length xs i j hi hij.le hin.le
  intro h
  rw [h] at hlen
  simp only [List.length_nil] at hlen
  omega

theorem pySlice_subset {α : Type} (xs : List α) (i j : Int) :
    ∀ x ∈ pySlice xs i j, x ∈ xs := by
  intro x hx
  exact List.mem_of_mem_take (List.mem_of_mem_drop hx)

/-! ### Window characterization of `chunk_text` on long texts -/


theorem mem_windowStarts {len cs ov i : Int} (hstep : 0 < cs - ov)
    (hi : i ∈ windowStarts len cs ov) : 0 ≤ i ∧ i < len := by
  obtain ⟨k, hk, rfl⟩ := List.mem_map.mp hi
  exact pyRange_pos_bound hstep (List.mem_range.mp hk)

theorem pyRange_windowStarts (len cs ov : Int) (hstep : 0 < cs - ov) :
    pyRange 0 len (cs - ov) = some (windowStarts len cs ov) := by
  rw [pyRange_pos _ _ hstep]; rfl

/-- On a text with more than `chunk_size` words and a positive step,
`chunk_text` returns one chunk per window start `k * step`, each the
space-join of the word slice `words[start : start + chunk_size]`;
the source's blank-chunk filter drops nothing. -/
theorem chunk_text_windows (text : String) (cs ov : Int)
    (hcs : 0 < cs) (hstep : 0 < cs - ov)
    (hlen : cs < ((pyWords text).length : Int)) :
    chunk_text text cs ov =
      .ok ((windowStarts ((pyWords text).length : Int) cs ov).map
        (fun i => pyJoin (pySlice (pyWords text) i (i + cs)))) := by
  have hwords : ∀ w ∈ pyWords text, CleanWord w.data := by
    intro w hw
    obtain ⟨l, hl, rfl⟩ := List.mem_map.mp hw
    exact pySplitL_clean _ l hl
  have hkeep : ∀ chunk ∈ (windowStarts ((pyWords text).length : Int) cs ov).map
      (fun i => pyJoin (pySlice (pyWords text) i (i + cs))),
      (decide (pyStrip chunk ≠ "")) = true := by
    intro chunk hchunk
    obtain ⟨i, hi, rfl⟩ := List.mem_map.mp hchunk
    obtain ⟨h0, hlt⟩ := mem_windowStarts hstep hi
    simp only [decide_eq_true_eq]
    refine pyStrip_pyJoin_ne_empty _ ?_ ?_
    · exact pySlice_ne_nil _ _ _ h0 (by omega) hlt
    · intro s hs
      exact hwords s (pySlice_subset _ _ _ s hs)
  unfold chunk_text
  rw [if_neg (by omega)]
  simp only [pyRange_windowStarts _ _ _ hstep]
  rw [List.filter_eq_self.mpr hkeep]

theorem chunk_text_short (text : String) (cs ov : Int)
    (h : ((pyWords text).length : Int) ≤ cs) (r : List String)
    (hok : chunk_text text cs ov = .ok r) : r.length ≤ 1 := by
  unfold chunk_text at hok
  rw [if_pos h] at hok
  injection hok with h'
  subst h'
  split <;> simp

theorem pySlice_of_le {α : Type} (xs : List α) (s cs : Int)
    (hs : 0 ≤ s) (hcs : 0 ≤ cs) (hle : s + cs ≤ (xs.length : Int)) :
    pySlice xs s (s + cs) = (xs.drop s.toNat).take cs.toNat := by
  rw [pySlice_eq_drop_take xs s (s + cs) hs (by omega) (by omega)]
  congr 1
  omega

theorem chunks_getD (text : String) (cs ov : Int) (k : Nat)
    (hk : k < numWindows ((pyWords text).length : Int) cs ov) :
    ((windowStarts ((pyWords text).length : Int) cs ov).map
      (fun i => pyJoin (pySlice (pyWords text) i (i + cs)))).getD k "" =
      pyJoin (pySlice (pyWords text) ((k : Int) * (cs - ov))
        ((k : Int) * (cs - ov) + cs)) := by
  rw [List.getD_eq_getElem _ _ (by simpa [windowStarts] using hk)]
  simp [windowStarts]

/-- C6 amended: `chunk()` is deterministic (its output is a function of
`(text, chunk_size, overlap)` alone, so any two calls agree), and any two
consecutive chunks of which the earlier one is a full window of
`chunk_size` words share exactly `overlap` words: the last `overlap`
words of the earlier chunk are the first `overlap` words of the later
one.  (The original claim's "every pair except possibly the final chunk"
fails when a truncated window occurs before the final chunk, which
happens whenever `overlap > chunk_size - overlap`; see the
counterexample.) -/
theorem chunk_overlap_full (text : String) (cs ov : Int) (chunks : List String)
    (hov : 0 ≤ ov) (hlt : ov < cs)
    (hok : chunk_text text cs ov = .ok chunks)
    (j : Nat) (hj : j + 1 < chunks.length)
    (hfull : (pyWords (chunks.getD j "")).length = cs.toNat) :
    (∀ chunks', chunk_text text cs ov = .ok chunks' → chunks' = chunks) ∧
    (pyWords (chunks.getD j "")).drop ((pyWords (chunks.getD j "")).length - ov.toNat) =
      (pyWords (chunks.getD (j + 1) "")).take ov.toNat := by
  refine ⟨fun chunks' h' => by rw [hok] at h'; injection h' with h''; exact h''.symm, ?_⟩
  rw [hfull]
  by_cases hshort : ((pyWords text).length : Int) ≤ cs
  · have := chunk_text_short text cs ov hshort chunks hok; omega
  · push_neg at hshort
    have hwin := chunk_text_windows text cs ov (by omega) (by omega) hshort
    rw [hok] at hwin
    injection hwin with hchunks
    have hword_clean : ∀ w ∈ pyWords text, CleanWord w.data := by
      intro w hw
      obtain ⟨l, hl, rfl⟩ := List.mem_map.mp hw
      exact pySplitL_clean _ l hl
    have hjN : j + 1 < numWindows ((pyWords text).length : Int) cs ov := by
      rw [hchunks] at hj
      simpa [windowStarts] using hj
    -- window starts of chunks j and j+1
    have hstep : (0 : Int) < cs - ov := by omega
    set sj : Int := (j : Int) * (cs - ov) with hsj
    set sj1 : Int := ((j + 1 : Nat) : Int) * (cs - ov) with hsj1
    have hsj1' : sj1 = sj + (cs - ov) := by rw [hsj, hsj1]; push_cast; ring
    have hjN' : j + 1 < ((((pyWords text).length : Int) + (cs - ov) - 1) / (cs - ov)).toNat := hjN
    have hsjb : 0 ≤ sj ∧ sj < ((pyWords text).length : Int) :=
      pyRange_pos_bound hstep (by omega)
    have hsj1b : 0 ≤ sj1 ∧ sj1 < ((pyWords text).length : Int) :=
      pyRange_pos_bound hstep hjN'
    have hgetj : chunks.getD j "" = pyJoin (pySlice (pyWords text) sj (sj + cs)) := by
      rw [hchunks]; exact chunks_getD text cs ov j (by omega)
    have hgetj1 : chunks.getD (j + 1) "" = pyJoin (pySlice (pyWords text) sj1 (sj1 + cs)) := by
      rw [hchunks]; exact chunks_getD text cs ov (j + 1) hjN
    have hclean_j : ∀ s ∈ pySlice (pyWords text) sj (sj + cs), CleanWord s.data := by
      intro s hs; exact hword_clean s (pySlice_subset _ _ _ s hs)
    have hclean_j1 : ∀ s ∈ pySlice (pyWords text) sj1 (sj1 + cs), CleanWord s.data := by
      intro s hs; exact hword_clean s (pySlice_subset _ _ _ s hs)
    have hwj : pyWords (chunks.getD j "") = pySlice (pyWords text) sj (sj + cs) := by
      rw [hgetj]; exact pyWords_pyJoin _ hclean_j
    have hwj1 : pyWords (chunks.getD (j + 1) "") = pySlice (pyWords text) sj1 (sj1 + cs) := by
      rw [hgetj1]; exact pyWords_pyJoin _ hclean_j1
    -- the earlier chunk being full means its window fits inside the text
    have hfull' : (pySlice (pyWords text) sj (sj + cs)).length = cs.toNat := by
      rw [← hwj]; exact hfull
    have hslice_len := pySlice_length (pyWords text) sj (sj + cs)
      hsjb.1 (by omega) hsjb.2.le
    have hfit : sj + cs ≤ ((pyWords text).length : Int) := by
      rw [hfull'] at hslice_len
      omega
    rw [hwj, hwj1]
    rw [pySlice_of_le _ _ _ hsjb.1 (by omega) hfit]
    rw [pySlice_eq_drop_take _ _ _ hsj1b.1 (by omega) hsj1b.2.le]
    rw [List.drop_take, List.drop_drop, List.take_take]
    have e1 : cs.toNat - (cs.toNat - ov.toNat) = ov.toNat := by omega
    have e2 : sj.toNat + (cs.toNat - ov.toNat) = sj1.toNat := by
      have := hsj1'
      omega
    have e3 : ov.toNat ⊓ ((min (sj1 + cs) ((pyWords text).length : Int)).toNat - sj1.toNat) =
        ov.toNat := by
      have h1 : sj1 + ov ≤ ((pyWords text).length : Int) := by omega
      omega
    rw [e1, e2, e3]


/-! ### Lemmas about `search` -/

theorem pyRound3_mono {x y : ℚ} (h : x ≤ y) : pyRound3 x ≤ pyRound3 y := by
  unfold pyRound3
  have hab : 1000 * x ≤ 1000 * y := by linarith
  have h1 : ⌊1000 * x⌋ ≤ ⌊1000 * y⌋ := Int.floor_le_floor hab
  apply div_le_div_of_nonneg_right ?_ (by norm_num : (0:ℚ) ≤ 1000)
  have hfa : (⌊1000 * x⌋ : ℚ) ≤ 1000 * x := Int.floor_le _
  have hfa1 : 1000 * x < ⌊1000 * x⌋ + 1 := Int.lt_floor_add_one _
  have hfb : (⌊1000 * y⌋ : ℚ) ≤ 1000 * y := Int.floor_le _
  have hfb1 : 1000 * y < ⌊1000 * y⌋ + 1 := Int.lt_floor_add_one _
  rcases h1.lt_or_eq with hlt | heq
  · have hc : (⌊1000 * x⌋ : ℚ) + 1 ≤ (⌊1000 * y⌋ : ℚ) := by exact_mod_cast hlt
    split_ifs <;> push_cast <;> linarith
  · rw [heq]
    have hfa' : (⌊1000 * y⌋ : ℚ) ≤ 1000 * x := heq ▸ hfa
    have hfa1' : 1000 * x < ⌊1000 * y⌋ + 1 := heq ▸ hfa1
    split_ifs <;> push_cast <;> linarith

theorem searchLoop_length_le (n : Nat) (ms : ℚ) :
    ∀ (cands : List Candidate) (acc : List SearchResult),
    acc.length < n → (searchLoop n ms cands acc).length ≤ n := by
  intro cands
  induction cands with
  | nil => intro acc hacc; simpa [searchLoop] using hacc.le
  | cons c rest ih =>
    intro acc hacc
    rw [searchLoop]
    by_cases hkeep : c.distance < ms ∨ acc.length < 3
    · rw [if_pos hkeep]
      by_cases hstop : n ≤ (acc ++ [toResult c]).length
      · rw [if_pos hstop]
        simpa using hacc
      · rw [if_neg hstop]
        refine ih _ ?_
        simp only [List.length_append, List.length_cons, List.length_nil] at hstop ⊢
        omega
    · rw [if_neg hkeep]
      rw [if_neg (by omega : ¬ n ≤ acc.length)]
      exact ih _ hacc


theorem foldl_keepStep_stopped (n : Nat) (ms : ℚ) :
    ∀ (cands : List Candidate) (acc : List SearchResult),
    (cands.foldl (keepStep n ms) (acc, true)).1 = acc := by
  intro cands
  induction cands with
  | nil => intro acc; rfl
  | cons c rest ih => intro acc; simpa [keepStep] using ih acc

theorem searchLoop_eq_foldl (n : Nat) (ms : ℚ) :
    ∀ (cands : List Candidate) (acc : List SearchResult),
    searchLoop n ms cands acc = (cands.foldl (keepStep n ms) (acc, false)).1 := by
  intro cands
  induction cands with
  | nil => intro acc; rfl
  | cons c rest ih =>
    intro acc
    rw [searchLoop, List.foldl_cons]
    by_cases hkeep : c.distance < ms ∨ acc.length < 3
    · rw [if_pos hkeep]
      by_cases hstop : n ≤ (acc ++ [toResult c]).length
      · rw [if_pos hstop]
        have hstop' : n ≤ acc.length + 1 := by simpa using hstop
        have : keepStep n ms (acc, false) c = (acc ++ [toResult c], true) := by
          simp [keepStep, hkeep, hstop']
        rw [this, foldl_keepStep_stopped]
      · rw [if_neg hstop]
        have hstop' : ¬ n ≤ acc.length + 1 := by simpa using hstop
        have : keepStep n ms (acc, false) c = (acc ++ [toResult c], false) := by
          simp [keepStep, hkeep, hstop']
        rw [this, ih]
    · rw [if_neg hkeep]
      by_cases hstop : n ≤ acc.length
      · rw [if_pos hstop]
        have : keepStep n ms (acc, false) c = (acc, true) := by
          simp [keepStep, hkeep, hstop]
        rw [this, foldl_keepStep_stopped]
      · rw [if_neg hstop]
        have : keepStep n ms (acc, false) c = (acc, false) := by
          simp [keepStep, hkeep, hstop]
        rw [this, ih]


/-! ### Claim C1 -/

/-- C1 counterexample: with one indexed record and an empty corpus, a
forced re-index leaves `count() == 1`, not `0`: `index_documents` never
calls `clear()`; with `force_reindex=True` it runs `load_all_pdfs`, finds
no documents, and returns with the collection untouched. -/
theorem C1_counterexample :
    (index_documents (fun _ => ()) ([] : List PageDoc) st1 true).map RAGState.count =
      .ok 1 := by decide

/-- C1 amended: a force re-index over a corpus that yields zero documents
leaves the collection exactly as it was (`count()` stays `N`); no record is
dropped because the code has no `clear()` step and returns early on an
empty corpus. -/
theorem C1_force_reindex_empty_corpus {V : Type} (e : String → V)
    (st : RAGState V) (N : Nat) (hc : st.count = N) (_hN : 0 < N) :
    index_documents e [] st true = .ok st ∧
    (index_documents e [] st true).map RAGState.count = .ok N := by
  have h : index_documents e [] st true = .ok st := by
    unfold index_documents
    rw [if_neg (by simp), if_pos (by simp)]
  exact ⟨h, by rw [h, Except.map, hc]⟩

/-- C1 witness: the amended statement at the one-record collection. -/
theorem C1_force_reindex_empty_corpus_witness :
    index_documents (fun _ => ()) ([] : List PageDoc) st1 true = .ok st1 ∧
    (index_documents (fun _ => ()) ([] : List PageDoc) st1 true).map RAGState.count =
      .ok 1 :=
  C1_force_reindex_empty_corpus (fun _ => ()) st1 1 (by decide) (by decide)

/-! ### Claim C3 -/

/-- C3 counterexample: `chunk_text` does not fail fast with an
`InvalidConfiguration` error when `overlap >= chunk_size` — no such error
exists in the code.  A text of at most `chunk_size` words is returned as a
single chunk; with `overlap > chunk_size` the negative step makes
`range` empty and the call silently returns no chunks; only
`overlap == chunk_size` on a longer text raises, and then it is Python's
`ValueError` from `range(..., 0)`. -/
theorem C3_counterexample :
    chunk_text "a" 100 100 = .ok ["a"] ∧
    chunk_text text101 100 150 = .ok [] ∧
    chunk_text text101 100 100 = .error .valueError := by decide

/-- C3 amended: on a text with more than `chunk_size` words,
`overlap == chunk_size` makes the zero-step `range` raise `ValueError`
(not an `InvalidConfiguration` error, which the code does not define),
and `overlap > chunk_size` silently yields no chunks. -/
theorem C3_nonpositive_step (text : String) (cs ov : Int)
    (hlong : cs < ((pyWords text).length : Int)) :
    (ov = cs → chunk_text text cs ov = .error .valueError) ∧
    (cs < ov → chunk_text text cs ov = .ok []) := by
  constructor
  · intro h
    unfold chunk_text
    rw [if_neg (by omega)]
    have hr : pyRange 0 ((pyWords text).length : Int) (cs - ov) = none := by
      unfold pyRange
      rw [if_pos (by omega)]
    simp only [hr]
  · intro h
    unfold chunk_text
    rw [if_neg (by omega)]
    have hr : pyRange 0 ((pyWords text).length : Int) (cs - ov) = some [] :=
      pyRange_neg ((pyWords text).length : Int) (cs - ov)
        (Int.natCast_nonneg _) (by omega)
    simp only [hr]
    simp

/-- C3 witness: the amended statement at a 101-word text with
`chunk_size=100` and `overlap` 100 and 150. -/
theorem C3_nonpositive_step_witness :
    ((100 : Int) < ((pyWords text101).length : Int)) ∧
    chunk_text text101 100 100 = .error .valueError ∧
    chunk_text text101 100 150 = .ok [] :=
  ⟨by decide, (C3_nonpositive_step text101 100 100 (by decide)).1 rfl,
    (C3_nonpositive_step text101 100 150 (by decide)).2 (by norm_num)⟩

/-! ### Claim C8 -/

/-- C8: running `index_documents` without the force flag on a collection
with `count() > 0` returns immediately: the collection state — hence the
count and every stored record (ids, texts) — is unchanged, whatever the
corpus yields. -/
theorem C8_ingest_idempotent {V : Type} (e : String → V) (corpus : List PageDoc)
    (st : RAGState V) (h : 0 < st.count) :
    index_documents e corpus st false = .ok st := by
  unfold index_documents
  rw [if_pos ⟨h, rfl⟩]

/-- C8 witness: re-ingesting a non-empty corpus over the one-record
collection leaves it untouched. -/
theorem C8_ingest_idempotent_witness :
    index_documents (fun _ => ()) [⟨"foo bar", "s.pdf", 1⟩] st1 false = .ok st1 :=
  C8_ingest_idempotent (fun _ => ()) [⟨"foo bar", "s.pdf", 1⟩] st1 (by decide)

/-! ### Claim C9 -/

/-- C9: on an empty collection (`count() == 0`), `search` returns `[]`
immediately and sends no text at all to the Embedding Engine (the second
component of `searchT` is the list of `encode` calls made). -/
theorem C9_empty_index_no_embedding {V : Type} (count : Nat) (e : String → V)
    (qn : V → Nat → List Candidate) (q : String) (n : Nat) (ms : ℚ)
    (h : count = 0) :
    searchT count e qn q n ms = ([], []) ∧ search count e qn q n ms = [] := by
  subst h
  exact ⟨rfl, rfl⟩

/-- C9 witness: the statement on a freshly created, empty collection. -/
theorem C9_empty_index_no_embedding_witness :
    searchT 0 (fun _ : String => ()) (fun _ _ => ([] : List Candidate)) "anything" 5 (3/10) =
      ([], []) ∧
    search 0 (fun _ : String => ()) (fun _ _ => ([] : List Candidate)) "anything" 5 (3/10) = [] :=
  C9_empty_index_no_embedding 0 (fun _ => ()) (fun _ _ => []) "anything" 5 (3/10) rfl

/-! ### Claim C10 -/

/-- C10: for `n_results ≥ 1`, `search` returns at most `n_results` results:
the loop breaks as soon as `n_results` results are kept, so the 3-result
floor never pushes the length above `n_results`. -/
theorem C10_at_most_n_results {V : Type} (count : Nat) (e : String → V)
    (qn : V → Nat → List Candidate) (q : String) (n : Nat) (ms : ℚ)
    (h : 1 ≤ n) :
    (search count e qn q n ms).length ≤ n := by
  unfold search searchT
  split
  · simpa using h
  · exact searchLoop_length_le n ms _ [] (by simpa using h)

/-- C10 witness: `n_results = 1` over four candidates keeps one result. -/
theorem C10_at_most_n_results_witness :
    (search 4 (fun _ : String => ()) (fun _ _ => cands4) "q" 1 (3/10)).length ≤ 1 :=
  C10_at_most_n_results 4 (fun _ => ()) (fun _ _ => cands4) "q" 1 (3/10) (by norm_num)

/-! ### Claim C2 -/

set_option maxRecDepth 10000 in
theorem words600_clean : ∀ s ∈ words600, CleanWord s.data := by decide

theorem pyWords_text600 : pyWords text600 = words600 :=
  pyWords_pyJoin words600 words600_clean

theorem words600_length : words600.length = 600 := by
  simp [words600]

set_option maxRecDepth 4000 in
theorem chunk600_eq : chunk_text text600 250 75 =
    .ok [pyJoin (pySlice words600 0 250), pyJoin (pySlice words600 175 425),
         pyJoin (pySlice words600 350 600), pyJoin (pySlice words600 525 600)] := by
  have h := chunk_text_windows text600 250 75 (by norm_num) (by norm_num)
    (by rw [pyWords_text600, words600_length]; norm_num)
  rw [pyWords_text600, words600_length] at h
  have hws : windowStarts ((600 : Nat) : Int) 250 75 = [0, 175, 350, 525] := by decide
  rw [hws] at h
  simpa using h

theorem count600 :
    (index_documents (fun _ => ()) [doc600] st0 false).map RAGState.count = .ok 4 := by
  unfold index_documents
  rw [if_neg (by simp [st0, RAGState.count]), if_neg (by simp)]
  have hmap : [doc600].mapM (fun d => chunk_text d.text) =
      .ok [[pyJoin (pySlice words600 0 250), pyJoin (pySlice words600 175 425),
            pyJoin (pySlice words600 350 600), pyJoin (pySlice words600 525 600)]] := by
    simp only [List.mapM_cons, List.mapM_nil]
    show (chunk_text text600 250 75).bind _ = _
    rw [chunk600_eq]
    rfl
  simp only [bind, Except.bind] at hmap ⊢
  rw [hmap]
  simp [Except.map, RAGState.count, st0, List.enum_length]

/-- C2 counterexample: the 600-word text does not produce 3 chunks: with
`chunk_size_words=250, overlap_words=75` the loop `range(0, 600, 175)`
visits starts 0, 175, 350 and 525, so `chunk_text` returns 4 chunks and
ingesting the single-page document yields `count() == 4`, not 3. -/
theorem C2_counterexample :
    (chunk_text text600 250 75).map List.length ≠ .ok 3 ∧
    (index_documents (fun _ => ()) [doc600] st0 false).map RAGState.count ≠ .ok 3 := by
  constructor
  · rw [chunk600_eq]
    simp [Except.map]
  · rw [count600]
    simp

/-- C2 amended: the 600-word single-page document yields 4 chunks at
word-offset windows `[0:250]`, `[175:425]`, `[350:600]` and `[525:600]`;
the first three are full 250-word windows and the fourth holds the final
75 words; ingesting the document yields `count() == 4`. -/
theorem C2_six_hundred_words_four_chunks :
    (pyWords text600).length = 600 ∧
    chunk_text text600 250 75 =
      .ok [pyJoin (pySlice words600 0 250), pyJoin (pySlice words600 175 425),
           pyJoin (pySlice words600 350 600), pyJoin (pySlice words600 525 600)] ∧
    (pyWords (pyJoin (pySlice words600 525 600))).length = 75 ∧
    (index_documents (fun _ => ()) [doc600] st0 false).map RAGState.count = .ok 4 := by
  refine ⟨by rw [pyWords_text600, words600_length], chunk600_eq, ?_, count600⟩
  have hclean : ∀ s ∈ pySlice words600 525 600, CleanWord s.data := by
    intro s hs
    exact words600_clean s (pySlice_subset _ _ _ s hs)
  rw [pyWords_pyJoin _ hclean]
  rw [pySlice_length words600 525 600 (by norm_num) (by norm_num)
    (by rw [words600_length]; norm_num)]
  rw [words600_length]
  decide

/-! ### Claim C4 -/

/-- C4 counterexample: the keep test is on the raw distance, not on the
score `1 - d`, and the stored score is rounded.  With `min_score = 0.3`
and four candidates of distances `0.1234, 0.5, 0.5, 0.5` (all scores
`1 - d ≥ 0.3`, so under the claim every one "passes the threshold" and
all four are kept), `search` keeps only 3 — the fourth fails
`distance < min_score` and the floor is full — and the first stored score
is `round(0.8766, 3) = 0.877`, not `1 - 0.1234 = 0.8766`. -/
theorem C4_counterexample :
    (search 4 (fun _ : String => ()) (fun _ _ => cands4) "q" 5 (3/10)).length = 3 ∧
    (3/10 ≤ 1 - (cands4.getD 0 cdef).distance) ∧
    (3/10 ≤ 1 - (cands4.getD 1 cdef).distance) ∧
    (3/10 ≤ 1 - (cands4.getD 2 cdef).distance) ∧
    (3/10 ≤ 1 - (cands4.getD 3 cdef).distance) ∧
    ((search 4 (fun _ : String => ()) (fun _ _ => cands4) "q" 5 (3/10)).map
      SearchResult.score).head? ≠ some (1 - 1234/10000) := by
  have hloop : search 4 (fun _ : String => ()) (fun _ _ => cands4) "q" 5 (3/10) =
      [toResult ⟨"t1", m0, 1234/10000⟩, toResult ⟨"t2", m0, 1/2⟩,
       toResult ⟨"t3", m0, 1/2⟩] := by
    unfold search searchT
    rw [if_neg (by norm_num)]
    show searchLoop 5 (3/10) cands4 [] = _
    norm_num [cands4, searchLoop]
  have hround : pyRound3 (1 - 1234/10000) = 877/1000 := by
    have h1 : (1 : ℚ) - 1234/10000 = 8766/10000 := by norm_num
    have h2 : (1000 : ℚ) * (8766/10000) = 8766/10 := by norm_num
    have h3 : ⌊(8766/10 : ℚ)⌋ = 876 := by norm_num [Int.floor_eq_iff]
    rw [h1]
    unfold pyRound3
    rw [h2, h3]
    rw [if_pos (by norm_num)]
    norm_num
  refine ⟨by rw [hloop]; rfl, ?_, ?_, ?_, ?_, ?_⟩
  · norm_num [cands4]
  · norm_num [cands4]
  · norm_num [cands4]
  · norm_num [cands4]
  · rw [hloop]
    simp only [List.map_cons, List.head?_cons, ne_eq, Option.some.injEq]
    show ¬ (toResult ⟨"t1", m0, 1234/10000⟩).score = 1 - 1234/10000
    unfold toResult
    simp only []
    rw [hround]
    norm_num

/-- C4 amended: `search` keeps a candidate exactly when its raw distance
is below `min_score` (equivalently, its score `1 - d` exceeds
`1 - min_score`) or fewer than 3 results have been kept so far, and stops
keeping once `n_results` results are kept; the stored score of each kept
candidate is `round(1 - distance, 3)`.  `searchKeepSpec` is that policy
written as a fold, and `search` computes it on the `2 × n_results`
nearest neighbours of the expanded query's embedding. -/
theorem C4_search_keep_policy {V : Type} (count : Nat) (e : String → V)
    (qn : V → Nat → List Candidate) (q : String) (n : Nat) (ms : ℚ) :
    search count e qn q n ms =
      if count = 0 then [] else searchKeepSpec (qn (e (expand_query q)) (n * 2)) n ms := by
  unfold search searchT searchKeepSpec
  split
  · rfl
  · exact searchLoop_eq_foldl n ms _ []

/-! ### Claim C5 -/

/-- C5: on an index of 5 records all scoring below `min_score = 0.3` for
the query (candidates sorted ascending by distance, as the vector store
returns them), `search(query, n_results=5, min_score=0.3)` still returns
at least 3 results — the floor keeps the first three — and the returned
sequence is ordered by descending (rounded) score. -/
theorem C5_relevance_floor {V : Type} (e : String → V)
    (qn : V → Nat → List Candidate) (q : String) (cands : List Candidate)
    (hqn : qn (e (expand_query q)) 10 = cands)
    (hlen : cands.length = 5)
    (hsorted : cands.Pairwise (fun a b => a.distance ≤ b.distance))
    (hlow : ∀ c ∈ cands, 1 - c.distance < 3/10) :
    3 ≤ (search 5 e qn q 5 (3/10)).length ∧
    (search 5 e qn q 5 (3/10)).Pairwise (fun r s => s.score ≤ r.score) := by
  have hs : search 5 e qn q 5 (3/10) = searchLoop 5 (3/10) cands [] := by
    unfold search searchT
    rw [if_neg (by norm_num)]
    show searchLoop 5 (3/10) (qn (e (expand_query q)) (5 * 2)) [] = _
    rw [show (5 * 2) = 10 from rfl, hqn]
  obtain ⟨a, b, c, d, e5, rfl⟩ : ∃ a b c d e5, cands = [a, b, c, d, e5] := by
    rcases cands with _ | ⟨a, _ | ⟨b, _ | ⟨c, _ | ⟨d, _ | ⟨e5, _ | ⟨f, t⟩⟩⟩⟩⟩⟩ <;>
      simp only [List.length_cons, List.length_nil] at hlen <;> try omega
    exact ⟨a, b, c, d, e5, rfl⟩
  have hna : ¬ a.distance < 3/10 := by have := hlow a (by simp); linarith
  have hnb : ¬ b.distance < 3/10 := by have := hlow b (by simp); linarith
  have hnc : ¬ c.distance < 3/10 := by have := hlow c (by simp); linarith
  have hnd : ¬ d.distance < 3/10 := by have := hlow d (by simp); linarith
  have hne : ¬ e5.distance < 3/10 := by have := hlow e5 (by simp); linarith
  have hloop : searchLoop 5 (3/10) [a, b, c, d, e5] [] =
      [toResult a, toResult b, toResult c] := by
    rw [searchLoop]
    rw [if_pos (Or.inr (by simp))]
    rw [if_neg (by simp)]
    rw [searchLoop]
    rw [if_pos (Or.inr (by simp))]
    rw [if_neg (by simp)]
    rw [searchLoop]
    rw [if_pos (Or.inr (by simp))]
    rw [if_neg (by simp)]
    have hd3 : ¬ (d.distance < 3/10 ∨
        ([] ++ [toResult a] ++ [toResult b] ++ [toResult c]).length < 3) := by
      rw [not_or]
      exact ⟨hnd, by simp⟩
    rw [searchLoop, if_neg hd3, if_neg (by simp)]
    have he3 : ¬ (e5.distance < 3/10 ∨
        ([] ++ [toResult a] ++ [toResult b] ++ [toResult c]).length < 3) := by
      rw [not_or]
      exact ⟨hne, by simp⟩
    rw [searchLoop, if_neg he3, if_neg (by simp)]
    rfl
  rw [hs, hloop]
  have hab : a.distance ≤ b.distance := (List.pairwise_cons.mp hsorted).1 b (by simp)
  have hac : a.distance ≤ c.distance := (List.pairwise_cons.mp hsorted).1 c (by simp)
  have hbc : b.distance ≤ c.distance :=
    (List.pairwise_cons.mp (List.pairwise_cons.mp hsorted).2).1 c (by simp)
  constructor
  · simp
  · refine List.Pairwise.cons ?_ (List.Pairwise.cons ?_ (List.Pairwise.cons ?_ .nil))
    · intro r hr
      rcases List.mem_cons.mp hr with rfl | hr
      · exact pyRound3_mono (by linarith)
      · rcases List.mem_singleton.mp hr with rfl
        exact pyRound3_mono (by linarith)
    · intro r hr
      rcases List.mem_singleton.mp hr with rfl
      exact pyRound3_mono (by linarith)
    · intro r hr
      cases hr

/-- C5 witness: the statement at five explicit low-scoring candidates. -/
theorem C5_relevance_floor_witness :
    3 ≤ (search 5 (fun _ : String => ()) (fun _ _ => cands5c) "q" 5 (3/10)).length ∧
    (search 5 (fun _ : String => ()) (fun _ _ => cands5c) "q" 5 (3/10)).Pairwise
      (fun r s => s.score ≤ r.score) :=
  C5_relevance_floor (fun _ => ()) (fun _ _ => cands5c) "q" cands5c rfl rfl
    (by norm_num [cands5c, List.pairwise_cons])
    (by
      intro c hc
      simp only [cands5c, List.mem_cons, List.mem_singleton, List.not_mem_nil,
        or_false] at hc
      rcases hc with rfl | rfl | rfl | rfl | rfl <;> norm_num)

/-! ### Claim C6 -/

theorem chunk14_eq : chunk_text text14 10 7 = .ok chunks14 := by decide

/-- C6 counterexample: with `chunk_size=10, overlap=7` (step 3) on a
14-word text, `chunk_text` deterministically yields 5 chunks with windows
`[0:10], [3:13], [6:14], [9:14], [12:14]`.  Chunk 3 (`words[9:14]`) is not
the final chunk, yet it holds only 5 words, so the pair of consecutive
chunks 2 and 3 does not overlap by exactly `overlap_words = 7` words:
the last 7 words of chunk 2 differ from the first 7 words of chunk 3. -/
theorem C6_counterexample :
    chunk_text text14 10 7 = .ok chunks14 ∧
    chunks14.length = 5 ∧
    (pyWords (chunks14.getD 3 "")).length = 5 ∧
    (pyWords (chunks14.getD 2 "")).drop ((pyWords (chunks14.getD 2 "")).length - 7) ≠
      (pyWords (chunks14.getD 3 "")).take 7 := by decide

/-- C6 witness: chunks 0 and 1 of the 14-word text — chunk 0 is a full
10-word window — overlap by exactly 7 words. -/
theorem chunk_overlap_full_witness :
    (pyWords (chunks14.getD 0 "")).drop ((pyWords (chunks14.getD 0 "")).length - (7 : Int).toNat) =
      (pyWords (chunks14.getD 1 "")).take (7 : Int).toNat :=
  (chunk_overlap_full text14 10 7 chunks14 (by norm_num) (by norm_num) chunk14_eq
    0 (by decide) (by decide)).2

/-! ### Claim C7 -/

theorem length_flatMap_le {α β : Type} (l : List α) (f : α → List β) (k : Nat)
    (h : ∀ x ∈ l, (f x).length ≤ k) : (l.flatMap f).length ≤ k * l.length := by
  induction l with
  | nil => simp
  | cons a t ih =>
    simp only [List.flatMap_cons, List.length_append, List.length_cons, Nat.mul_succ]
    have h1 := h a (by simp)
    have h2 := ih (fun x hx => h x (by simp [hx]))
    omega

/-- C7: `_expand_query` joins the original query with, for every synonym
key occurring as a case-insensitive substring of the lower-cased query
(a plain substring test, also inside longer words), the first two of that
key's mapped terms — so at most 2 terms per matched key are appended; if
no key occurs, the query is returned unchanged; and on
`"comment fonctionne la magie"` only the key `"magie"` matches, giving
the original query followed by `"magic"` and `"spell"`. -/
theorem C7_expand_query (q : String) :
    expand_query q = pyJoin (q :: expansionTerms q) ∧
    ((∀ kv ∈ DND_SYNONYMS, pyContains (pyLower q) kv.1 = false) → expand_query q = q) ∧
    (expansionTerms q).length ≤
      2 * (DND_SYNONYMS.filter (fun kv => pyContains (pyLower q) kv.1)).length ∧
    expand_query "comment fonctionne la magie" =
      "comment fonctionne la magie magic spell" := by
  refine ⟨rfl, ?_, ?_, by decide⟩
  · intro h
    have hfil : DND_SYNONYMS.filter (fun kv => pyContains (pyLower q) kv.1) = [] := by
      rw [List.filter_eq_nil_iff]
      intro kv hkv
      simp [h kv hkv]
    unfold expand_query expansionTerms
    rw [hfil]
    exact String.mk_data q
  · unfold expansionTerms
    exact length_flatMap_le _ _ 2 (fun x _ => List.length_take_le 2 x.2)

/-- C7 witness: a query matching no synonym key is returned unchanged. -/
theorem C7_expand_query_witness : expand_query "xyz" = "xyz" :=
  (C7_expand_query "xyz").2.1 (by decide)

end RAG
